import Mathlib

/-!
Verification of the two-tier disk-backed byte buffer (`buffer.go`).

The Go `Buffer` is shallowly embedded as a Lean structure.  Bytes are
modelled as natural numbers; the in-memory `bytes.Buffer` is modelled by
the list of its *unread* bytes (Go's `bytes.Buffer.Len`, `Bytes`, `Read`
all act on the unread portion only); the temporary overflow file is
modelled by the list of bytes written to it together with an optional
open read handle carrying the sequential read cursor.  File-system
effects are modelled explicitly: `fileOnDisk` is true while the temp
file exists (Go `b.filename != ""`), and a parameter of `Write` records
whether temp-file creation succeeds.  Encryption is not enabled in any
modelled run (the adapters are pass-through wrappers around the same
file contents), so the file holds the plaintext overflow bytes.
Go's `panic` is modelled by an `Option` result (`none` = panic).
-/

namespace DiskBuffer

/-- A byte.  The Go code never inspects byte values, so plain naturals
suffice. -/
abbrev Byte := Nat

/-- Errors surfaced by the modelled operations, matching the Go error
values: `ErrBufferFinished`, the wrapped temp-file-creation failure,
`io.EOF`, the negative-offset error of `ReadAt`, and the wrapped
`os.Open` failure when the temp file is gone. -/
inductive GoErr where
  | bufferFinished
  | tempFileFailed
  | eof
  | negativeOffset
  | openFailed
  deriving DecidableEq, Repr

/-- State of the Go `Buffer` struct (`buffer.go` lines 27-52).
`buff` is the unread portion of the in-memory `bytes.Buffer`;
`fileData` is everything written to the temp file; `readFile` is
`some c` when the read handle is open with sequential cursor `c`
(an open handle keeps access to the data even after the file is
removed from disk, but the code only reads through `readFile` or by
re-opening, so `fileOnDisk` gates re-opening). -/
structure Buffer where
  maxInMemorySize : Nat
  writingFinished : Bool
  readingFinished : Bool
  size : Nat
  offset : Nat
  buff : List Byte
  useFile : Bool
  fileData : List Byte
  readFile : Option Nat
  fileOnDisk : Bool
  writeFileOpen : Bool
  deriving DecidableEq, Repr

/-- `NewBufferWithMaxMemorySize` (lines 55-65); `buff.Grow` has no
observable effect. -/
def NewBufferWithMaxMemorySize (maxInMemorySize : Nat) : Buffer :=
  { maxInMemorySize := maxInMemorySize
    writingFinished := false
    readingFinished := false
    size := 0
    offset := 0
    buff := []
    useFile := false
    fileData := []
    readFile := none
    fileOnDisk := false
    writeFileOpen := false }

/-- `Buffer.Write` (lines 135-187).  `tmpOk` says whether
`ioutil.TempFile` succeeds when the overflow file must be created.
The deferred `b.size += n` is applied in every branch.  `bytes.Buffer.Write`
never fails.  After a failed temp-file creation the Go code has
`useFile = true` with a nil `writeFile`; a later write would dereference
nil, a state no modelled run reaches. -/
def Buffer.Write (b : Buffer) (data : List Byte) (tmpOk : Bool) :
    (Nat × Option GoErr) × Buffer :=
  if b.writingFinished then ((0, some .bufferFinished), b)
  else if b.useFile = false then
    if b.buff.length + data.length ≤ b.maxInMemorySize then
      ((data.length, none),
       { b with buff := b.buff ++ data, size := b.size + data.length })
    else
      let bound := b.maxInMemorySize - b.buff.length
      if tmpOk then
        ((bound + (data.drop bound).length, none),
         { b with buff := b.buff ++ data.take bound
                  useFile := true
                  fileData := data.drop bound
                  fileOnDisk := true
                  writeFileOpen := true
                  size := b.size + (bound + (data.drop bound).length) })
      else
        ((bound, some .tempFileFailed),
         { b with buff := b.buff ++ data.take bound
                  useFile := true
                  size := b.size + bound })
  else
    ((data.length, none),
     { b with fileData := b.fileData ++ data, size := b.size + data.length })

/-- `Buffer.readFromFile` (lines 399-419), unencrypted path: open the
temp file if no read handle exists, then `os.File.Read`, which returns
the available prefix with no error, or `(0, io.EOF)` at end of file
when at least one byte was requested. -/
def Buffer.readFromFile (b : Buffer) (len : Nat) :
    (List Byte × Option GoErr) × Buffer :=
  match b.readFile with
  | none =>
    if b.fileOnDisk then
      let bs := b.fileData.take len
      ((bs, if bs.length = 0 ∧ 0 < len then some .eof else none),
       { b with readFile := some bs.length })
    else (([], some .openFailed), b)
  | some c =>
    let bs := (b.fileData.drop c).take len
    ((bs, if bs.length = 0 ∧ 0 < len then some .eof else none),
     { b with readFile := some (c + bs.length) })

/-- Body of `Buffer.Read` (lines 276-307), before the deferred
bookkeeping: drain the memory tier first and fall through to the file;
`bytes.Buffer.Read` on a non-empty buffer never errors and returns
`min` of the request and the unread length. -/
def Buffer.readRaw (b : Buffer) (len : Nat) :
    (List Byte × Option GoErr) × Buffer :=
  if b.buff.length ≠ 0 then
    let memBs := b.buff.take len
    let b2 : Buffer := { b with buff := b.buff.drop len }
    if memBs.length = len ∨ b2.useFile = false then ((memBs, none), b2)
    else
      let fr := b2.readFromFile (len - memBs.length)
      ((memBs ++ fr.1.1, fr.1.2), fr.2)
  else if b.useFile then b.readFromFile len
  else (([], some .eof), b)

/-- `Buffer.Read` (lines 243-308).  The caller's slice is modelled by
its length.  The deferred block advances `offset`, marks the reading
finished on a short read, and then closes and deletes the temp file. -/
def Buffer.Read (b : Buffer) (len : Nat) :
    (List Byte × Option GoErr) × Buffer :=
  if b.readingFinished then (([], some .eof), b)
  else
    let b1 : Buffer := { b with writingFinished := true, writeFileOpen := false }
    let r := b1.readRaw len
    let n := r.1.1.length
    let b3 : Buffer :=
      { r.2 with offset := r.2.offset + n
                 readingFinished := r.2.readingFinished || decide (n < len) }
    let b4 : Buffer :=
      if b3.readingFinished = true ∧ b3.readFile.isSome then
        { b3 with readFile := none, fileOnDisk := false }
      else b3
    ((r.1.1, r.1.2), b4)

/-- `Buffer.ReadAt` (lines 310-393), unencrypted path.  `bufferSize` is
the unread length of the in-memory `bytes.Buffer`; `bytes.NewReader
(b.buff.Bytes()).ReadAt` reads from the unread portion without
consuming it; `os.File.ReadAt` reads at an absolute file offset without
moving the sequential handle cursor.  The Go code reuses the cached
`b.readFile` handle when present and otherwise opens the file,
failing if it was already deleted. -/
def memPart (buff : List Byte) (o len : Nat) : List Byte :=
  if o < buff.length then (buff.drop o).take len else []

def filePart (fileData : List Byte) (fo remaining : Nat) : List Byte :=
  (fileData.drop fo).take remaining

def Buffer.ReadAt (b : Buffer) (len : Nat) (off : Int) :
    (List Byte × Option GoErr) × Buffer :=
  if off < 0 then (([], some .negativeOffset), b)
  else if len = 0 then (([], none), b)
  else if (b.size : Int) ≤ off then (([], some .eof), b)
  else
    let b1 : Buffer := { b with writingFinished := true, writeFileOpen := false }
    let o := off.toNat
    let memBs := memPart b1.buff o len
    let remaining := len - memBs.length
    if 0 < remaining ∧ b1.useFile = true then
      if b1.readFile.isSome ∨ b1.fileOnDisk = true then
        let b2 : Buffer := if b1.readFile.isSome then b1 else { b1 with readFile := some 0 }
        let fileBs := filePart b2.fileData ((o + memBs.length) - b1.buff.length) remaining
        ((memBs ++ fileBs,
          if memBs.length + fileBs.length < len then some .eof else none), b2)
      else ((memBs, some .openFailed), b1)
    else
      ((memBs, if memBs.length < len then some .eof else none), b1)

/-- `Buffer.Next` (lines 483-491): reads from the in-memory
`bytes.Buffer` only and panics on any error; `bytes.Buffer.Read`
errors (with `io.EOF`) exactly when the unread memory is empty and at
least one byte was requested, so that case panics (`none`). -/
def Buffer.Next (b : Buffer) (n : Nat) : Option (List Byte × Buffer) :=
  if b.buff.length = 0 ∧ 0 < n then none
  else some (b.buff.take n, { b with buff := b.buff.drop n })

/-- `Buffer.Len` (lines 520-522): `b.size - b.offset` (Go `int`
subtraction; in every reachable state `offset ≤ size`). -/
def Buffer.Len (b : Buffer) : Nat := b.size - b.offset

/-- `Buffer.Cap` (lines 525-527). -/
def Buffer.Cap (b : Buffer) : Nat := b.Len

/-- `Buffer.Reset` (lines 530-550): clears the memory tier, closes the
handles and removes the temp file, and resets the flags.  The Go code
does not touch `size` or `offset`. -/
def Buffer.Reset (b : Buffer) : Buffer :=
  { b with buff := []
           writingFinished := false
           readingFinished := false
           writeFileOpen := false
           readFile := none
           useFile := false
           fileData := []
           fileOnDisk := false }

/-- Fold a sequence of (successful-filesystem) writes over a buffer. -/
def writeAll (b : Buffer) (ws : List (List Byte)) : Buffer :=
  ws.foldl (fun s d => (s.Write d true).2) b

/-- Run sequential reads with the given chunk sizes, collecting all
returned bytes. -/
def readSeq (b : Buffer) : List Nat → List Byte × Buffer
  | [] => ([], b)
  | c :: cs =>
    let r := b.Read c
    let rest := readSeq r.2 cs
    (r.1.1 ++ rest.1, rest.2)

/-- Apply a sequence of `ReadAt` calls (length, offset), keeping only
the final state. -/
def raOps (b : Buffer) : List (Nat × Int) → Buffer
  | [] => b
  | p :: ps => raOps (b.ReadAt p.1 p.2).2 ps

/-- The sequential file-read cursor: position of the open read handle,
or `0` if the file would be opened fresh. -/
def curOf (b : Buffer) : Nat := b.readFile.getD 0

/-- Whether the overflow data is reachable for reading: either a read
handle is already open or the file still exists on disk. -/
def canAccess (b : Buffer) : Bool := b.readFile.isSome || b.fileOnDisk

/-- The state produced by any sequence of writes that concatenates to
`S` on a fresh buffer with threshold `t`: the memory tier holds the
first `min t S.length` bytes and the file the excess. -/
def postWrite (t : Nat) (S : List Byte) : Buffer :=
  if S.length ≤ t then
    { maxInMemorySize := t
      writingFinished := false
      readingFinished := false
      size := S.length
      offset := 0
      buff := S
      useFile := false
      fileData := []
      readFile := none
      fileOnDisk := false
      writeFileOpen := false }
  else
    { maxInMemorySize := t
      writingFinished := false
      readingFinished := false
      size := S.length
      offset := 0
      buff := S.take t
      useFile := true
      fileData := S.drop t
      readFile := none
      fileOnDisk := true
      writeFileOpen := true }

/-- One successful write moves `postWrite t S` to `postWrite t (S ++ d)`,
accepting all of `d`. -/
theorem write_postWrite (t : Nat) (S d : List Byte) :
    (postWrite t S).Write d true = ((d.length, none), postWrite t (S ++ d)) := by
  unfold postWrite Buffer.Write
  by_cases h1 : S.length ≤ t
  · simp only [if_pos h1]
    by_cases h2 : S.length + d.length ≤ t
    · have h3 : (S ++ d).length ≤ t := by simpa [List.length_append] using h2
      simp [h2, h3]
    · have hbound : t - S.length < d.length := by omega
      have hb : (S ++ d).take t = S ++ d.take (t - S.length) := by
        rw [List.take_append_eq_append_take, List.take_of_length_le h1]
      have hf : (S ++ d).drop t = d.drop (t - S.length) := by
        rw [List.drop_append_eq_append_drop, List.drop_of_length_le h1,
          List.nil_append]
      simp [h2, hb, hf, List.length_drop]
      omega
  · simp only [if_neg h1]
    have hb : (S ++ d).take t = S.take t := by
      rw [List.take_append_eq_append_take, Nat.sub_eq_zero_of_le (by omega),
        List.take_zero, List.append_nil]
    have hf : (S ++ d).drop t = S.drop t ++ d := by
      rw [List.drop_append_eq_append_drop, Nat.sub_eq_zero_of_le (by omega),
        List.drop_zero]
    have h4 : ¬ S.length + d.length ≤ t := by omega
    simp [h4, hb, hf]

/-- A fresh buffer is the post-write state of the empty byte sequence. -/
theorem new_eq_postWrite (t : Nat) :
    NewBufferWithMaxMemorySize t = postWrite t [] := by
  simp [NewBufferWithMaxMemorySize, postWrite]

/-- Folding writes over a post-write state appends their concatenation. -/
theorem writeAll_postWrite (t : Nat) (ws : List (List Byte)) :
    ∀ S : List Byte, writeAll (postWrite t S) ws = postWrite t (S ++ ws.flatten) := by
  induction ws with
  | nil => intro S; simp [writeAll]
  | cons d ws ih =>
    intro S
    show writeAll ((postWrite t S).Write d true).2 ws = _
    rw [write_postWrite, ih (S ++ d)]
    simp

/-- Closed form of any sequence of writes on a fresh buffer. -/
theorem writeAll_new (t : Nat) (ws : List (List Byte)) :
    writeAll (NewBufferWithMaxMemorySize t) ws = postWrite t ws.flatten := by
  rw [new_eq_postWrite, writeAll_postWrite]
  simp

/-- The bytes and error returned by `ReadAt`, as a function of the
fields it actually consults. -/
def readAtPure (buff fileData : List Byte) (size : Nat) (useFile acc : Bool)
    (len : Nat) (off : Int) : List Byte × Option GoErr :=
  if off < 0 then ([], some .negativeOffset)
  else if len = 0 then ([], none)
  else if (size : Int) ≤ off then ([], some .eof)
  else
    let o := off.toNat
    let memBs := memPart buff o len
    let remaining := len - memBs.length
    if 0 < remaining ∧ useFile = true then
      if acc = true then
        let fileBs := filePart fileData ((o + memBs.length) - buff.length) remaining
        (memBs ++ fileBs,
         if memBs.length + fileBs.length < len then some .eof else none)
      else (memBs, some .openFailed)
    else (memBs, if memBs.length < len then some .eof else none)

/-- The result of `ReadAt` depends only on the unread memory, the file
contents, the total size, the tier flag and the accessibility of the
file. -/
theorem ReadAt_fst (b : Buffer) (len : Nat) (off : Int) :
    (b.ReadAt len off).1
      = readAtPure b.buff b.fileData b.size b.useFile (canAccess b) len off := by
  simp only [Buffer.ReadAt, readAtPure, canAccess]
  rcases hrf : b.readFile with _ | c <;> cases hd : b.fileOnDisk <;>
    simp [hrf, hd] <;> split_ifs <;> simp_all

/-- `ReadAt` never changes the sequential cursor, the stored bytes, the
flags, or the accessibility of the file; it only closes the write side
and may cache an open read handle. -/
theorem ReadAt_frame (b : Buffer) (len : Nat) (off : Int) :
    (b.ReadAt len off).2.buff = b.buff ∧
    (b.ReadAt len off).2.fileData = b.fileData ∧
    (b.ReadAt len off).2.size = b.size ∧
    (b.ReadAt len off).2.offset = b.offset ∧
    (b.ReadAt len off).2.useFile = b.useFile ∧
    (b.ReadAt len off).2.readingFinished = b.readingFinished ∧
    (b.ReadAt len off).2.fileOnDisk = b.fileOnDisk ∧
    canAccess (b.ReadAt len off).2 = canAccess b := by
  simp only [Buffer.ReadAt, canAccess]
  split_ifs <;> simp_all

theorem drop_length_take (l : List Byte) (n : Nat) :
    l.drop (l.take n).length = l.drop n := by
  by_cases h : n ≤ l.length
  · have h1 : (l.take n).length = n := by rw [List.length_take]; omega
    rw [h1]
  · have h1 : (l.take n).length = l.length := by rw [List.length_take]; omega
    rw [h1, List.drop_of_length_le (Nat.le_refl _),
      List.drop_of_length_le (by omega)]

theorem drop_inf (l : List Byte) (n : Nat) :
    l.drop (n ⊓ l.length) = l.drop n := by
  have h := drop_length_take l n
  rwa [List.length_take] at h

/-- Characterization of one pass of the `Read` body: it returns the next
`len` bytes of the not-yet-drained sequential content and advances the
memory tier and the file cursor accordingly, touching nothing else. -/
theorem readRaw_spec (b : Buffer) (len : Nat)
    (hnf : b.useFile = false → b.fileData = [])
    (hacc : b.useFile = true → canAccess b = true) :
    ∃ rf : Option Nat,
      (b.readRaw len).2 = { b with buff := b.buff.drop len, readFile := rf } ∧
      (b.readRaw len).1.1 = (b.buff ++ b.fileData.drop (curOf b)).take len ∧
      (b.readRaw len).1.1.length
        = min len (b.buff ++ b.fileData.drop (curOf b)).length ∧
      b.buff.drop len ++ b.fileData.drop (rf.getD 0)
        = (b.buff ++ b.fileData.drop (curOf b)).drop len ∧
      (b.useFile = true → rf.isSome = true ∨ b.fileOnDisk = true) ∧
      (b.useFile = false → rf = b.readFile) := by
  obtain ⟨mx, wf, rdf, sz, off, buff, uf, fd, hnd, disk, wfo⟩ := b
  simp only [canAccess] at hnf hacc
  simp only [Buffer.readRaw, Buffer.readFromFile, curOf]
  by_cases hb : buff = []
  · subst hb
    cases uf with
    | false =>
      have hfd : fd = [] := hnf rfl
      subst hfd
      exact ⟨hnd, by simp, by simp, by simp, by simp, by simp, by simp⟩
    | true =>
      have hca := hacc rfl
      cases hnd with
      | none =>
        have hd : disk = true := by simpa using hca
        subst hd
        refine ⟨some (fd.take len).length, by simp, by simp, ?_, ?_, by simp,
          by simp⟩
        · simp [List.length_take]
        · simp [List.length_take, drop_inf]
      | some c =>
        refine ⟨some (c + ((fd.drop c).take len).length), by simp, by simp,
          ?_, ?_, by simp, by simp⟩
        · simp [List.length_take]
        · simp only [List.drop_nil, List.nil_append, Option.getD_some,
            ← List.drop_drop, drop_length_take]
  · have hblen : ¬ buff.length = 0 := by
      simpa [List.length_eq_zero] using hb
    by_cases hlen : len ≤ buff.length
    · simp only [if_neg (by simpa using hblen), ne_eq, hblen, not_false_iff,
        if_true, if_pos (by simp [List.length_take]; omega :
          (buff.take len).length = len ∨
            ({ maxInMemorySize := mx, writingFinished := wf,
               readingFinished := rdf, size := sz, offset := off,
               buff := buff.drop len, useFile := uf, fileData := fd,
               readFile := hnd, fileOnDisk := disk,
               writeFileOpen := wfo } : Buffer).useFile = false)]
      refine ⟨hnd, by simp, ?_, ?_, ?_, ?_, by simp⟩
      · rw [List.take_append_eq_append_take, Nat.sub_eq_zero_of_le hlen,
          List.take_zero, List.append_nil]
      · rw [List.length_take, List.length_append]
        omega
      · rw [List.drop_append_eq_append_drop, Nat.sub_eq_zero_of_le hlen,
          List.drop_zero]
      · intro hu
        have := hacc hu
        simpa using this
    · cases uf with
      | false =>
        have hfd : fd = [] := hnf rfl
        subst hfd
        simp only [if_neg (by simpa using hblen), ne_eq, hblen, not_false_iff,
          if_true, if_pos (.inr rfl :
            (buff.take len).length = len ∨
              ({ maxInMemorySize := mx, writingFinished := wf,
                 readingFinished := rdf, size := sz, offset := off,
                 buff := buff.drop len, useFile := false, fileData := [],
                 readFile := hnd, fileOnDisk := disk,
                 writeFileOpen := wfo } : Buffer).useFile = false)]
        refine ⟨hnd, by simp, by simp, ?_, by simp, by simp, by simp⟩
        simp [List.length_take]
      | true =>
        have hca := hacc rfl
        have hfull : buff.take len = buff :=
          List.take_of_length_le (by omega)
        have hnotc : ¬ ((buff.take len).length = len ∨
            ({ maxInMemorySize := mx, writingFinished := wf,
               readingFinished := rdf, size := sz, offset := off,
               buff := buff.drop len, useFile := true, fileData := fd,
               readFile := hnd, fileOnDisk := disk,
               writeFileOpen := wfo } : Buffer).useFile = false) := by
          push_neg
          exact ⟨by rw [List.length_take]; omega, by simp⟩
        have hk : len - (buff.take len).length = len - buff.length := by
          rw [List.length_take]; omega
        have hbdrop : buff.drop len = [] :=
          List.drop_of_length_le (by omega)
        cases hnd with
        | none =>
          have hd : disk = true := by simpa using hca
          subst hd
          simp only [if_neg (by simpa using hblen), ne_eq, hblen,
            not_false_iff, if_true, if_neg hnotc, hk, if_pos rfl]
          refine ⟨some (fd.take (len - buff.length)).length, by simp, ?_, ?_,
            ?_, by simp, by simp⟩
          · simp only [Option.getD_none, List.drop_zero]
            rw [List.take_append_eq_append_take, hfull]
          · simp only [Option.getD_none, List.drop_zero, List.length_append,
              List.length_take]
            omega
          · simp only [Option.getD_none, Option.getD_some, List.drop_zero,
              drop_length_take, List.drop_append_eq_append_drop, hbdrop,
              List.nil_append]
        | some c =>
          simp only [if_neg (by simpa using hblen), ne_eq, hblen,
            not_false_iff, if_true, if_neg hnotc, hk]
          refine ⟨some (c + ((fd.drop c).take (len - buff.length)).length),
            by simp, ?_, ?_, ?_, by simp, by simp⟩
          · simp only [Option.getD_some]
            rw [List.take_append_eq_append_take, hfull]
          · simp only [Option.getD_some, List.length_append, List.length_take,
              List.length_drop]
            omega
          · simp only [Option.getD_some, ← List.drop_drop, drop_length_take,
              List.drop_append_eq_append_drop, hbdrop, List.nil_append]

/-- Invariant tying a buffer state to the byte sequence `S` it was
loaded with: the sequential path has delivered `offset` bytes, the
undrained content is exactly the rest of `S`, and a finished reader has
delivered everything. -/
def ReadInv (S : List Byte) (b : Buffer) : Prop :=
  b.size = S.length ∧
  b.offset ≤ S.length ∧
  (b.readingFinished = false →
    b.buff ++ b.fileData.drop (curOf b) = S.drop b.offset ∧
    (b.useFile = false → b.fileData = []) ∧
    (b.useFile = true → canAccess b = true)) ∧
  (b.readingFinished = true → b.offset = S.length)

/-- One sequential `Read` preserves the invariant, advances the cursor
by exactly the returned byte count, and returns the next bytes of `S`. -/
theorem Read_spec (S : List Byte) (b : Buffer) (hInv : ReadInv S b) (len : Nat) :
    ReadInv S (b.Read len).2 ∧
    (b.Read len).2.offset = b.offset + (b.Read len).1.1.length ∧
    (b.Read len).1.1 ++ S.drop ((b.Read len).2.offset) = S.drop b.offset := by
  obtain ⟨mx, wf, rdf, sz, off, buff, uf, fd, hnd, disk, wfo⟩ := b
  simp only [ReadInv, curOf, canAccess] at hInv ⊢
  obtain ⟨hsz, hoff, hlive, hfin⟩ := hInv
  cases rdf with
  | true =>
    have heq : (⟨mx, wf, true, sz, off, buff, uf, fd, hnd, disk, wfo⟩ :
        Buffer).Read len
        = (([], some GoErr.eof),
           ⟨mx, wf, true, sz, off, buff, uf, fd, hnd, disk, wfo⟩) := by
      simp [Buffer.Read]
    rw [heq]
    exact ⟨⟨hsz, hoff, by simp, hfin⟩, by simp, by simp⟩
  | false =>
    obtain ⟨hrem, hnf, hacc⟩ := hlive rfl
    obtain ⟨rf, hstate, hbytes, hlen2, hrem2, hacc2, hnf2⟩ :=
      readRaw_spec ⟨mx, true, false, sz, off, buff, uf, fd, hnd, disk, false⟩
        len hnf hacc
    simp only [curOf] at hrem2
    generalize hR : (⟨mx, true, false, sz, off, buff, uf, fd, hnd, disk,
      false⟩ : Buffer).readRaw len = R at hstate hbytes hlen2
    obtain ⟨⟨bs, err⟩, st⟩ := R
    simp only [curOf] at hstate hbytes hlen2 hacc2 hnf2
    subst hstate
    have hn : bs.length = min len (S.length - off) := by
      rw [hlen2, hrem, List.length_drop]
    have hbs : bs = (S.drop off).take len := by rw [hbytes, hrem]
    simp only [Buffer.Read, hR, Bool.false_eq_true, if_false]
    by_cases hshort : bs.length < len
    · have hofffin : off + bs.length = S.length := by omega
      have hdropfin : S.drop (off + bs.length) = [] :=
        List.drop_of_length_le (by omega)
      have hbsfull : bs = S.drop off := by
        rw [hbs, List.take_of_length_le (by rw [List.length_drop]; omega)]
      cases hnd2 : rf with
      | none =>
        simp only [hnd2, hshort, decide_True, Bool.or_true, Bool.false_or,
          Option.isSome_none, Bool.false_eq_true, and_false, if_false]
        refine ⟨⟨hsz, by omega, by simp, fun _ => hofffin⟩, by simp, ?_⟩
        simp only [hdropfin, List.append_nil]
        exact hbsfull
      | some c =>
        simp only [hnd2, hshort, decide_True, Bool.or_true, Bool.false_or,
          Option.isSome_some, and_true, eq_self_iff_true, if_true]
        refine ⟨⟨hsz, by omega, by simp, fun _ => hofffin⟩, by simp, ?_⟩
        simp only [hdropfin, List.append_nil]
        exact hbsfull
    · have hfull2 : bs.length = len := by omega
      have hle : len ≤ S.length - off := by omega
      simp only [hshort, decide_False, Bool.or_false, Bool.false_eq_true,
        false_and, if_false]
      have hdrop2 : S.drop (off + bs.length) = (S.drop off).drop len := by
        rw [List.drop_drop, hfull2]
      refine ⟨⟨hsz, by omega, ?_, by simp⟩, by simp, ?_⟩
      · intro h
        refine ⟨?_, hnf, ?_⟩
        · rw [hrem2, hrem, hdrop2]
        · intro hu
          rcases hacc2 hu with h1 | h1 <;> simp [h1]
      · rw [hdrop2, hbs]
        exact List.take_append_drop len (S.drop off)

theorem readSeq_spec (S : List Byte) (cs : List Nat) :
    ∀ b : Buffer, ReadInv S b →
      ReadInv S (readSeq b cs).2 ∧
      (readSeq b cs).2.offset = b.offset + (readSeq b cs).1.length ∧
      (readSeq b cs).1 ++ S.drop ((readSeq b cs).2.offset) = S.drop b.offset := by
  induction cs with
  | nil =>
    intro b h
    exact ⟨h, by simp [readSeq], by simp [readSeq]⟩
  | cons c cs ih =>
    intro b h
    obtain ⟨h1, h2, h3⟩ := Read_spec S b h c
    obtain ⟨h4, h5, h6⟩ := ih (b.Read c).2 h1
    refine ⟨by simpa [readSeq] using h4, ?_, ?_⟩
    · simp only [readSeq, List.length_append]
      omega
    · simp only [readSeq]
      rw [List.append_assoc, h6]
      exact h3

theorem postWrite_offset (t : Nat) (S : List Byte) :
    (postWrite t S).offset = 0 := by
  unfold postWrite
  split_ifs <;> rfl

theorem postWrite_ReadInv (t : Nat) (S : List Byte) :
    ReadInv S (postWrite t S) := by
  unfold ReadInv postWrite curOf canAccess
  by_cases h : S.length ≤ t
  · simp [h]
  · simp [h, List.take_append_drop]

/-- Claim C1: sequential round-trip.  For every sequence of writes whose
payloads concatenate to `S` on a fresh buffer of any threshold, reading
sequentially with any (positive) chunk sizes until end-of-data is
signalled returns chunks that concatenate back to exactly `S`,
regardless of whether `S` overflowed into the backing file. -/
theorem c1_sequential_round_trip (t : Nat) (ws : List (List Byte))
    (cs : List Nat) (hpos : ∀ c ∈ cs, 0 < c)
    (hfin : (readSeq (writeAll (NewBufferWithMaxMemorySize t) ws)
      cs).2.readingFinished = true) :
    (readSeq (writeAll (NewBufferWithMaxMemorySize t) ws) cs).1
      = ws.flatten := by
  rw [writeAll_new] at hfin ⊢
  obtain ⟨h1, h2, h3⟩ :=
    readSeq_spec ws.flatten cs (postWrite t ws.flatten)
      (postWrite_ReadInv t ws.flatten)
  obtain ⟨hsz, hoff, hlive, hfin2⟩ := h1
  rw [hfin2 hfin, postWrite_offset, List.drop_length, List.drop_zero,
    List.append_nil] at h3
  exact h3

/-- Witness for C1 at threshold 2, writes `[[1,2,3]]`, chunks `[2,2]`:
the memory tier holds `[1,2]`, the file `[3]`, and the two reads return
`[1,2]` and `[3]`. -/
theorem c1_sequential_round_trip_witness :
    (∀ c ∈ [2,2], 0 < c) ∧
    (readSeq (writeAll (NewBufferWithMaxMemorySize 2) [[1,2,3]])
      [2,2]).2.readingFinished = true ∧
    (readSeq (writeAll (NewBufferWithMaxMemorySize 2) [[1,2,3]]) [2,2]).1
      = ([[1,2,3]] : List (List Byte)).flatten :=
  ⟨by decide, by decide,
    c1_sequential_round_trip 2 [[1,2,3]] [2,2] (by decide) (by decide)⟩

theorem readAt_postWrite (t : Nat) (S : List Byte) (len off : Nat)
    (ht : t < S.length) (hrange : off + len ≤ S.length) :
    ((postWrite t S).ReadAt len (off : Int)).1.1 = (S.drop off).take len ∧
    ((postWrite t S).ReadAt len (off : Int)).1.1.length = len ∧
    ((postWrite t S).ReadAt len (off : Int)).1.2 = none := by
  have htk : (S.take t).length = t := by rw [List.length_take]; omega
  have hsplit : S.drop off = (S.take t).drop off ++ (S.drop t).drop (off - t) := by
    conv_lhs => rw [← List.take_append_drop t S]
    rw [List.drop_append_eq_append_drop, htk]
  simp only [postWrite, if_neg (show ¬ S.length ≤ t by omega)]
  simp only [Buffer.ReadAt, memPart, filePart]
  rw [if_neg (by simp : ¬ ((off : Int) < 0))]
  by_cases hl : len = 0
  · subst hl
    simp
  · rw [if_neg hl,
      if_neg (show ¬ ((S.length : Int) ≤ (off : Int)) by
        rw [not_le]; exact_mod_cast (by omega : off < S.length))]
    simp only [Int.toNat_natCast, htk]
    by_cases hofft : off < t
    · have hdoff : ((S.take t).drop off).length = t - off := by
        rw [List.length_drop, htk]
      rw [if_pos hofft]
      by_cases hrem0 : 0 < len - (((S.take t).drop off).take len).length
      · have hlt : t - off < len := by
          rw [List.length_take] at hrem0; omega
        have hmlen : (((S.take t).drop off).take len).length = t - off := by
          rw [List.length_take]; omega
        have hmfull : ((S.take t).drop off).take len = (S.take t).drop off :=
          List.take_of_length_le (by omega)
        rw [if_pos (⟨hrem0, by trivial⟩ : 0 < len -
          (((S.take t).drop off).take len).length ∧ True)]
        rw [if_pos (by exact Or.inr (by trivial))]
        simp only [Option.isSome_none, Bool.false_eq_true, if_false, hmlen]
        have hfo : off + (t - off) - t = 0 := by omega
        rw [hfo, List.drop_zero]
        have hflen : ((S.drop t).take (len - (t - off))).length
            = len - (t - off) := by
          rw [List.length_take, List.length_drop]; omega
        refine ⟨?_, ?_, ?_⟩
        · rw [hsplit, (show off - t = 0 by omega), List.drop_zero,
            List.take_append_eq_append_take, hdoff, hmfull]
        · rw [List.length_append, hmlen, hflen]
          omega
        · rw [if_neg (by omega : ¬ t - off +
            ((S.drop t).take (len - (t - off))).length < len)]
      · have hge : len ≤ t - off := by
          rw [List.length_take] at hrem0; omega
        have hmlen : (((S.take t).drop off).take len).length = len := by
          rw [List.length_take]; omega
        rw [if_neg (by
          rw [not_and_or]
          left
          omega)]
        refine ⟨?_, hmlen, ?_⟩
        · rw [hsplit, (show off - t = 0 by omega), List.drop_zero,
            List.take_append_eq_append_take, hdoff,
            (show len - (t - off) = 0 by omega), List.take_zero,
            List.append_nil]
        · rw [if_neg (by omega)]
    · rw [if_neg hofft]
      simp only [List.length_nil, Nat.sub_zero, List.nil_append, Nat.add_zero]
      have hflen : (((S.drop t).drop (off - t)).take len).length = len := by
        rw [List.length_take, List.length_drop, List.length_drop]; omega
      rw [if_pos (⟨by omega, by trivial⟩ : 0 < len ∧ True)]
      rw [if_pos (by exact Or.inr (by trivial))]
      simp only [Option.isSome_none, Bool.false_eq_true, if_false]
      refine ⟨?_, hflen, ?_⟩
      · rw [hsplit, List.drop_of_length_le (by omega : (S.take t).length ≤ off),
          List.nil_append]
      · rw [if_neg (by omega)]

/-- Claim C2: cross-tier stitching of random-access reads.  For a fresh
buffer with threshold `t`, content `S` with `S.length > t`, and no other
state change, `ReadAt` with a request of `n` bytes at offset `off` with
`off + n ≤ S.length` returns exactly `S[off : off+n]`, reporting `n`
bytes and no error, whether or not the range crosses the memory/file
boundary. -/
theorem c2_cross_tier_stitching (t : Nat) (ws : List (List Byte))
    (len off : Nat) (ht : t < ws.flatten.length)
    (hrange : off + len ≤ ws.flatten.length) :
    ((writeAll (NewBufferWithMaxMemorySize t) ws).ReadAt len
      (off : Int)).1.1 = (ws.flatten.drop off).take len ∧
    ((writeAll (NewBufferWithMaxMemorySize t) ws).ReadAt len
      (off : Int)).1.1.length = len ∧
    ((writeAll (NewBufferWithMaxMemorySize t) ws).ReadAt len
      (off : Int)).1.2 = none := by
  rw [writeAll_new]
  exact readAt_postWrite t ws.flatten len off ht hrange

/-- Witness for C2 at threshold 2, content `[1,2,3,4]`, reading 2 bytes
at offset 1: the range crosses the memory/file boundary and returns
`[2,3]`. -/
theorem c2_cross_tier_stitching_witness :
    (2 < ([[1,2,3,4]] : List (List Byte)).flatten.length ∧
      1 + 2 ≤ ([[1,2,3,4]] : List (List Byte)).flatten.length) ∧
    ((writeAll (NewBufferWithMaxMemorySize 2) [[1,2,3,4]]).ReadAt 2
      ((1 : Nat) : Int)).1.1 = (([[1,2,3,4]] : List (List Byte)).flatten.drop 1).take 2 :=
  ⟨⟨by decide, by decide⟩,
    (c2_cross_tier_stitching 2 [[1,2,3,4]] 2 1 (by decide) (by decide)).1⟩

/-- Claim C3: threshold boundary.  Writing a total of exactly `t` bytes
(in any number of writes) never creates a backing file; writing `t + 1`
or more bytes always does, with exactly `total - t` bytes in the file
and exactly `t` bytes kept in the memory tier. -/
theorem c3_threshold_boundary (t : Nat) (ws : List (List Byte)) :
    (ws.flatten.length = t →
      (writeAll (NewBufferWithMaxMemorySize t) ws).useFile = false) ∧
    (t + 1 ≤ ws.flatten.length →
      (writeAll (NewBufferWithMaxMemorySize t) ws).useFile = true ∧
      (writeAll (NewBufferWithMaxMemorySize t) ws).fileData.length
        = ws.flatten.length - t ∧
      (writeAll (NewBufferWithMaxMemorySize t) ws).buff.length = t) := by
  rw [writeAll_new]
  unfold postWrite
  constructor
  · intro h
    rw [if_pos (by omega)]
  · intro h
    rw [if_neg (by omega)]
    refine ⟨rfl, ?_, ?_⟩
    · rw [List.length_drop]
    · rw [List.length_take]
      omega

/-- Witness for C3: threshold 2 with writes `[9,8]` (exactly 2 bytes,
memory only) and `[9,8],[7]` (3 bytes, file holds 1, memory holds 2). -/
theorem c3_threshold_boundary_witness :
    (writeAll (NewBufferWithMaxMemorySize 2) [[9,8]]).useFile = false ∧
    ((writeAll (NewBufferWithMaxMemorySize 2) [[9,8],[7]]).useFile = true ∧
      (writeAll (NewBufferWithMaxMemorySize 2) [[9,8],[7]]).fileData.length
        = ([[9,8],[7]] : List (List Byte)).flatten.length - 2 ∧
      (writeAll (NewBufferWithMaxMemorySize 2) [[9,8],[7]]).buff.length = 2) :=
  ⟨(c3_threshold_boundary 2 [[9,8]]).1 (by decide),
   (c3_threshold_boundary 2 [[9,8],[7]]).2 (by decide)⟩

/-- Claim C8: length accounting.  After any writes totalling `k` bytes,
`Len` is `k`; after draining `r` bytes sequentially it is `k - r`
(and `r ≤ k`); `ReadAt` never changes `Len`; `Cap` equals `Len`. -/
theorem c8_length_accounting (t : Nat) (ws : List (List Byte))
    (cs : List Nat) (len : Nat) (off : Int) :
    (writeAll (NewBufferWithMaxMemorySize t) ws).Len = ws.flatten.length ∧
    (readSeq (writeAll (NewBufferWithMaxMemorySize t) ws) cs).1.length
      ≤ ws.flatten.length ∧
    (readSeq (writeAll (NewBufferWithMaxMemorySize t) ws) cs).2.Len
      = ws.flatten.length
        - (readSeq (writeAll (NewBufferWithMaxMemorySize t) ws) cs).1.length ∧
    ((readSeq (writeAll (NewBufferWithMaxMemorySize t) ws) cs).2.ReadAt len
        off).2.Len
      = (readSeq (writeAll (NewBufferWithMaxMemorySize t) ws) cs).2.Len ∧
    (readSeq (writeAll (NewBufferWithMaxMemorySize t) ws) cs).2.Cap
      = (readSeq (writeAll (NewBufferWithMaxMemorySize t) ws) cs).2.Len := by
  rw [writeAll_new]
  obtain ⟨⟨hsz, hoff, _, _⟩, h2, h3⟩ :=
    readSeq_spec ws.flatten cs (postWrite t ws.flatten)
      (postWrite_ReadInv t ws.flatten)
  obtain ⟨_, _, hfs, hfo, _, _, _, _⟩ :=
    ReadAt_frame (readSeq (postWrite t ws.flatten) cs).2 len off
  have hsz0 : (postWrite t ws.flatten).size = ws.flatten.length := by
    unfold postWrite
    split_ifs <;> rfl
  rw [postWrite_offset] at h2
  refine ⟨?_, by omega, ?_, ?_, rfl⟩
  · unfold Buffer.Len
    rw [hsz0, postWrite_offset]
    omega
  · unfold Buffer.Len
    omega
  · unfold Buffer.Len
    rw [hfs, hfo]

/-- Claim C4 (code bug) evaluated at the failing input: `Next` does not
set `writingFinished` (the `Write` doc comment, `buffer.go` line 134,
says a write after `Next` must fail with `ErrBufferFinished`), so after
writing `[1,2]` on a threshold-10 buffer and draining one byte with
`Next 1`, the next write returns `(2, nil)` and succeeds instead of
failing. -/
theorem c4_write_after_next_not_rejected :
    ((((NewBufferWithMaxMemorySize 10).Write [1,2] true).2.Next 1).map
        (fun p => p.1)) = some [1] ∧
    ((((NewBufferWithMaxMemorySize 10).Write [1,2] true).2.Next 1).map
        (fun p => (p.2.Write [3,4] true).1)) = some (2, none) := by
  constructor <;> decide

/-- Claim C5 (code bug) evaluated at the failing input: `Reset` never
clears `size` and `offset`, so after writing five bytes and calling
`Reset` the buffer reports `Len = 5` while a newly constructed buffer
with the same threshold reports `Len = 0`; the reset state is not the
fresh state. -/
theorem c5_reset_not_fresh :
    ((writeAll (NewBufferWithMaxMemorySize 5) [[1,2,3,4,5]]).Reset).Len = 5 ∧
    (NewBufferWithMaxMemorySize 5).Len = 0 ∧
    (writeAll (NewBufferWithMaxMemorySize 5) [[1,2,3,4,5]]).Reset
      ≠ NewBufferWithMaxMemorySize 5 := by
  refine ⟨by decide, by decide, by decide⟩

theorem raOps_frame (ps : List (Nat × Int)) : ∀ b : Buffer,
    (raOps b ps).buff = b.buff ∧ (raOps b ps).fileData = b.fileData ∧
    (raOps b ps).size = b.size ∧ (raOps b ps).offset = b.offset ∧
    (raOps b ps).useFile = b.useFile ∧
    (raOps b ps).readingFinished = b.readingFinished ∧
    (raOps b ps).fileOnDisk = b.fileOnDisk ∧
    canAccess (raOps b ps) = canAccess b := by
  induction ps with
  | nil => intro b; exact ⟨rfl, rfl, rfl, rfl, rfl, rfl, rfl, rfl⟩
  | cons p ps ih =>
    intro b
    obtain ⟨a1, a2, a3, a4, a5, a6, a7, a8⟩ := ReadAt_frame b p.1 p.2
    obtain ⟨b1, b2, b3, b4, b5, b6, b7, b8⟩ := ih (b.ReadAt p.1 p.2).2
    refine ⟨?_, ?_, ?_, ?_, ?_, ?_, ?_, ?_⟩ <;> simp only [raOps]
    · rw [b1, a1]
    · rw [b2, a2]
    · rw [b3, a3]
    · rw [b4, a4]
    · rw [b5, a5]
    · rw [b6, a6]
    · rw [b7, a7]
    · rw [b8, a8]

/-- Claim C6 (amended): `ReadAt` never changes the sequential cursor or
`readingFinished`, and repeated `ReadAt` calls with identical arguments
return identical bytes as long as only other `ReadAt` calls (no
sequential reads, `Next`, or `Reset`) happen in between. -/
theorem c6_readat_independent_and_repeatable (b : Buffer) (len : Nat)
    (off : Int) (ps : List (Nat × Int)) :
    ((b.ReadAt len off).2.offset = b.offset ∧
     (b.ReadAt len off).2.readingFinished = b.readingFinished) ∧
    ((raOps (b.ReadAt len off).2 ps).ReadAt len off).1.1
      = (b.ReadAt len off).1.1 := by
  obtain ⟨a1, a2, a3, a4, a5, a6, a7, a8⟩ := ReadAt_frame b len off
  refine ⟨⟨a4, a6⟩, ?_⟩
  obtain ⟨b1, b2, b3, b4, b5, b6, b7, b8⟩ :=
    raOps_frame ps (b.ReadAt len off).2
  have h1 := ReadAt_fst (raOps (b.ReadAt len off).2 ps) len off
  have h2 := ReadAt_fst b len off
  rw [h1, b1, a1, b2, a2, b3, a3, b5, a5, b8, a8, h2]

/-- Counterexample to C6 as stated: with threshold 2 and content
`[1,2,3,4]`, `ReadAt 2 0` returns `[1,2]`; after one interleaved
sequential `Read` of one byte, the same `ReadAt 2 0` returns `[2,3]`,
because the memory/file split is computed from the unread part of the
memory tier. -/
theorem c6_counterexample :
    ((((writeAll (NewBufferWithMaxMemorySize 2) [[1,2,3,4]]).ReadAt 2
        0).2.Read 1).2.ReadAt 2 0).1.1
      ≠ ((writeAll (NewBufferWithMaxMemorySize 2) [[1,2,3,4]]).ReadAt 2
        0).1.1 ∧
    ((writeAll (NewBufferWithMaxMemorySize 2) [[1,2,3,4]]).ReadAt 2 0).1.1
      = [1,2] ∧
    ((((writeAll (NewBufferWithMaxMemorySize 2) [[1,2,3,4]]).ReadAt 2
        0).2.Read 1).2.ReadAt 2 0).1.1 = [2,3] := by
  refine ⟨by decide, by decide, by decide⟩

/-- Claim C7 (amended): `Next n` reads from the memory tier only and
returns at most `n` bytes, with no error, provided the memory tier is
non-empty or `n = 0`; when the memory tier is empty and `n ≥ 1` it
panics (modelled as `none`), because `bytes.Buffer.Read` reports
`io.EOF` and `Next` panics on any error. -/
theorem c7_next_memory_tier_only (b : Buffer) (n : Nat)
    (h : b.buff.length ≠ 0 ∨ n = 0) :
    b.Next n = some (b.buff.take n, { b with buff := b.buff.drop n }) ∧
    (b.buff.take n).length ≤ n := by
  constructor
  · unfold Buffer.Next
    rw [if_neg (by omega)]
  · rw [List.length_take]
    omega

/-- Witness for C7: threshold 2 with content `[1,2,3]`; `Next 5`
returns only the two memory-tier bytes `[1,2]`, never touching the file
byte `[3]`. -/
theorem c7_next_memory_tier_only_witness :
    ((writeAll (NewBufferWithMaxMemorySize 2) [[1,2,3]]).buff.length ≠ 0 ∨
      (5 : Nat) = 0) ∧
    (writeAll (NewBufferWithMaxMemorySize 2) [[1,2,3]]).Next 5
      = some ((writeAll (NewBufferWithMaxMemorySize 2) [[1,2,3]]).buff.take 5,
          { writeAll (NewBufferWithMaxMemorySize 2) [[1,2,3]] with
            buff := (writeAll (NewBufferWithMaxMemorySize 2)
              [[1,2,3]]).buff.drop 5 }) :=
  ⟨by decide,
   (c7_next_memory_tier_only (writeAll (NewBufferWithMaxMemorySize 2)
      [[1,2,3]]) 5 (by decide)).1⟩

/-- Counterexample to C7 as stated: on a buffer whose memory tier is
empty, `Next 1` panics (modelled by `none`) instead of returning the
available zero bytes without error. -/
theorem c7_counterexample : (NewBufferWithMaxMemorySize 5).Next 1 = none := by
  decide

/-- Claim C9: `Next` drains bytes from the memory tier without touching
the sequential counters — after a successful `Next n` returning `k`
bytes, `size`, `offset`, and hence `Len` are unchanged, while the
returned bytes are removed from the memory tier (`buff` loses its first
`k` bytes), so no later sequential read can return them. -/
theorem c9_next_preserves_cursor (b : Buffer) (n : Nat) (out : List Byte)
    (b2 : Buffer) (h : b.Next n = some (out, b2)) :
    b2.size = b.size ∧ b2.offset = b.offset ∧ b2.Len = b.Len ∧
    out = b.buff.take n ∧ b2.buff = b.buff.drop n ∧
    b2.fileData = b.fileData ∧ b2.readFile = b.readFile := by
  unfold Buffer.Next at h
  by_cases hc : b.buff.length = 0 ∧ 0 < n
  · rw [if_pos hc] at h
    exact absurd h (by simp)
  · rw [if_neg hc] at h
    have h2 := Option.some.inj h
    rw [Prod.ext_iff] at h2
    obtain ⟨hout, hb2⟩ := h2
    subst hout
    subst hb2
    exact ⟨rfl, rfl, rfl, rfl, rfl, rfl, rfl⟩

/-- Witness for C9: threshold 2 with content `[1,2,3]`; `Next 1`
returns `[1]` and leaves `Len` unchanged. -/
theorem c9_next_preserves_cursor_witness :
    (writeAll (NewBufferWithMaxMemorySize 2) [[1,2,3]]).Next 1
      = some ([1], ⟨2, false, false, 3, 0, [2], true, [3], none, true,
          true⟩) ∧
    (⟨2, false, false, 3, 0, [2], true, [3], none, true, true⟩ :
        Buffer).Len
      = (writeAll (NewBufferWithMaxMemorySize 2) [[1,2,3]]).Len :=
  ⟨by decide,
   (c9_next_preserves_cursor (writeAll (NewBufferWithMaxMemorySize 2)
      [[1,2,3]]) 1 [1] _ (by decide)).2.2.1⟩

/-- Claim C10: `Write` updates `size` by exactly the count it reports,
whether or not it fails; in particular when temp-file creation fails
during overflow, the bytes already copied into the memory tier stay
stored and counted, so a failed write is not atomic. -/
theorem c10_write_size_accounting (b : Buffer) (data : List Byte)
    (tmpOk : Bool) :
    (b.Write data tmpOk).2.size = b.size + (b.Write data tmpOk).1.1 ∧
    (b.writingFinished = false → b.useFile = false → tmpOk = false →
      b.maxInMemorySize < b.buff.length + data.length →
      (b.Write data tmpOk).1.2 = some GoErr.tempFileFailed ∧
      (b.Write data tmpOk).2.buff
        = b.buff ++ data.take (b.maxInMemorySize - b.buff.length) ∧
      (b.Write data tmpOk).1.1 = b.maxInMemorySize - b.buff.length) := by
  constructor
  · unfold Buffer.Write
    split_ifs <;> simp
  · intro h1 h2 h3 h4
    unfold Buffer.Write
    rw [if_neg (by simp [h1]), if_pos h2, if_neg (by omega),
      if_neg (by simp [h3])]
    exact ⟨rfl, rfl, rfl⟩

/-- Witness for C10: a fresh threshold-2 buffer, writing `[5,6,7]` with
temp-file creation failing: the write reports 2 bytes and the error,
`size` grows by exactly 2, and `[5,6]` stays in the memory tier. -/
theorem c10_write_size_accounting_witness :
    ((NewBufferWithMaxMemorySize 2).writingFinished = false ∧
      (NewBufferWithMaxMemorySize 2).useFile = false ∧
      (NewBufferWithMaxMemorySize 2).maxInMemorySize <
        (NewBufferWithMaxMemorySize 2).buff.length +
          ([5,6,7] : List Byte).length) ∧
    ((NewBufferWithMaxMemorySize 2).Write [5,6,7] false).1.2
      = some GoErr.tempFileFailed ∧
    ((NewBufferWithMaxMemorySize 2).Write [5,6,7] false).2.size
      = (NewBufferWithMaxMemorySize 2).size
        + ((NewBufferWithMaxMemorySize 2).Write [5,6,7] false).1.1 :=
  ⟨⟨rfl, rfl, by decide⟩,
   ((c10_write_size_accounting (NewBufferWithMaxMemorySize 2) [5,6,7]
      false).2 rfl rfl rfl (by decide)).1,
   (c10_write_size_accounting (NewBufferWithMaxMemorySize 2) [5,6,7]
      false).1⟩

end DiskBuffer
